import Mathlib

/-
Verification of the estimation engine of app/services/analyst_service.py:
the cost estimator (estimate_cost) and the dependency scheduler
(estimate_timeline), shallowly embedded in Lean.

Modelling conventions.

* A Python datetime is the number of minutes since an arbitrary epoch
  (an Int); one calendar day is 1440 minutes.  A "DD.MM.YYYY" date string
  is identified with its calendar day number: `dateOf dt = dt.fdiv 1440`
  models `_format_date` (which keeps only the calendar date) and
  `midnight d = d * 1440` models `datetime.strptime(s, "%d.%m.%Y")`
  (which yields midnight of that date).  `timedelta.days` of a difference
  is floor division by 1440 (`tdDays`), matching Python's normalisation
  of negative timedeltas.

* A task dict is a structure of optional fields; a missing key is `none`.
  `RawTask` additionally allows the "id" key to be absent: estimate_cost
  only ever reads `t.get("id")` and so never fails on it, whereas
  estimate_timeline subscripts `t["id"]`, which raises KeyError when the
  key is absent (modelled by `estimate_timeline_raw` returning `.error`).

* Python dicts are insertion-ordered association lists (`alookup`,
  `upsert`: overwriting keeps the original key position, as in CPython).
  Monetary values use ℚ; the shipped rate table and task hours are
  integers, far below the range where float rounding could deviate from
  exact arithmetic.

* `buffer_days` models `int(round(duration_days * 0.2))`.  Since
  duration_days / 5 is never a half-integer, Python's banker's rounding
  agrees with rounding half up, and for all realistic magnitudes the
  float product rounds exactly like the rational d / 5; the definition is
  `(2 * d + 5).fdiv 10` clamped at 0, proved equal to
  `max 0 (round (d / 5 : ℚ))` below.

* The iteration order of the Python set `remaining` in the topological
  pass is modelled as insertion order in `topoGo`; `topoGoWith` exposes
  that order as an explicit parameter, so that dependence of the output
  on the set-iteration order can be exhibited.
-/

namespace AnalystService

/- Insertion-ordered association list (a Python dict).  Lookup returns the
first binding; upsert overwrites in place, keeping the key's position. -/

def alookup {α : Type} (m : List (String × α)) (k : String) : Option α :=
  match m with
  | [] => none
  | p :: rest => if p.1 = k then some p.2 else alookup rest k

def upsert {α : Type} (m : List (String × α)) (k : String) (v : α) :
    List (String × α) :=
  match m with
  | [] => [(k, v)]
  | p :: rest => if p.1 = k then (k, v) :: rest else p :: upsert rest k v

/- Dates: minutes since an epoch; 1440 minutes per day. -/

def minutesPerDay : Int := 1440

/- Models _format_date: the calendar date (day number) of a datetime. -/
def dateOf (dt : Int) : Int := Int.fdiv dt minutesPerDay

/- Models datetime.strptime(s, "%d.%m.%Y"): midnight of a calendar date. -/
def midnight (d : Int) : Int := d * minutesPerDay

/- Models (a - b).days for a Python timedelta (floor division). -/
def tdDays (delta : Int) : Int := Int.fdiv delta minutesPerDay

/- Task records.  A field is `none` when the corresponding dict key is
absent.  `RawTask` also lets the "id" key be absent. -/

structure RawTask where
  id : Option String := none
  title : Option String := none
  hours : Option Int := none
  role : Option String := none
  depends_on : Option (List String) := none
deriving Repr, DecidableEq

structure Task where
  id : String
  title : Option String := none
  hours : Option Int := none
  role : Option String := none
  depends_on : Option (List String) := none
deriving Repr, DecidableEq

def Task.toRaw (t : Task) : RawTask :=
  { id := some t.id, title := t.title, hours := t.hours, role := t.role,
    depends_on := t.depends_on }

def RawTask.withId (t : RawTask) : Option Task :=
  t.id.map fun i =>
    { id := i, title := t.title, hours := t.hours, role := t.role,
      depends_on := t.depends_on }

/- Rate table: a dict role → hourly rate, as in DEFAULT_RATES_PER_HOUR. -/

abbrev RateTable := List (String × ℚ)

def DEFAULT_RATES_PER_HOUR : RateTable :=
  [("backend", 500), ("frontend", 350), ("devops", 600), ("qa", 300),
   ("ux", 600), ("pm", 800), ("default", 500)]

/- Cost estimator (estimate_cost, lines 138-168).

For each task the loop computes
  hours = int(t.get("hours", 0)); role = t.get("role", "default");
  rate  = rates.get(role, rates["default"]); cost = hours * rate
and accumulates the breakdown and the running total.  Note that Python
evaluates the subscript rates["default"] before calling .get, so a table
without a "default" key raises KeyError even for known roles; the model
returns `none` in exactly that case. -/

structure CostLine where
  id : Option String
  title : Option String
  hours : Int
  role : String
  rate : ℚ
  cost : ℚ
deriving Repr, DecidableEq

structure CostEstimate where
  breakdown : List CostLine
  total : ℚ
deriving Repr, DecidableEq

/- Models rates.get(role, rates["default"]): none iff "default" absent. -/
def resolveRate (rates : RateTable) (role : String) : Option ℚ :=
  (alookup rates "default").map fun d => (alookup rates role).getD d

def costLoop (rates : RateTable) :
    List RawTask → List CostLine → ℚ → Option CostEstimate
  | [], acc, total => some { breakdown := acc.reverse, total := total }
  | t :: ts, acc, total =>
    match resolveRate rates (t.role.getD "default") with
    | none => none
    | some rate =>
      let hours : Int := t.hours.getD 0
      let cost : ℚ := (hours : ℚ) * rate
      costLoop rates ts
        ({ id := t.id, title := t.title, hours := hours,
           role := t.role.getD "default", rate := rate, cost := cost } :: acc)
        (total + cost)

def estimate_cost (tasks : List RawTask) (rates : RateTable) :
    Option CostEstimate :=
  costLoop rates tasks [] 0

/- The cost line the loop produces for one task, given the default rate. -/
def costLineOf (rates : RateTable) (dr : ℚ) (t : RawTask) : CostLine :=
  let rate := (alookup rates (t.role.getD "default")).getD dr
  { id := t.id, title := t.title, hours := t.hours.getD 0,
    role := t.role.getD "default", rate := rate,
    cost := ((t.hours.getD 0 : Int) : ℚ) * rate }

lemma resolveRate_of_default {rates : RateTable} {dr : ℚ}
    (hd : alookup rates "default" = some dr) (role : String) :
    resolveRate rates role = some ((alookup rates role).getD dr) := by
  simp [resolveRate, hd]

lemma costLoop_spec {rates : RateTable} {dr : ℚ}
    (hd : alookup rates "default" = some dr) :
    ∀ (ts : List RawTask) (acc : List CostLine) (total : ℚ),
      costLoop rates ts acc total =
        some { breakdown := acc.reverse ++ ts.map (costLineOf rates dr),
               total := total + ((ts.map (costLineOf rates dr)).map
                 (fun l => l.cost)).sum } := by
  intro ts
  induction ts with
  | nil => intro acc total; simp [costLoop]
  | cons t ts ih =>
    intro acc total
    rw [costLoop, resolveRate_of_default hd]
    simp only [ih, List.map_cons, List.reverse_cons, List.sum_cons,
      List.append_assoc, List.singleton_append, costLineOf, add_assoc]

lemma estimate_cost_spec {rates : RateTable} {dr : ℚ}
    (hd : alookup rates "default" = some dr) (tasks : List RawTask) :
    estimate_cost tasks rates =
      some { breakdown := tasks.map (costLineOf rates dr),
             total := ((tasks.map (costLineOf rates dr)).map
               (fun l => l.cost)).sum } := by
  rw [estimate_cost, costLoop_spec hd]
  simp

/- Dependency scheduler (estimate_timeline, lines 170-273). -/

structure SchedEntry where
  id : String
  title : Option String
  role : String
  hours : Int
  start_date : Int
  end_date : Int
  duration_days : Int
  depends_on : List String
deriving Repr, DecidableEq

structure TimelineEstimate where
  project_start : Int
  project_end : Int
  total_work_days : Int
  role_days : List (String × Int)
  task_schedule : List SchedEntry
deriving Repr, DecidableEq

/- id_map = dict-comprehension over tasks keyed by t["id"] (line 183):
later duplicates overwrite the value but keep the key position. -/
def idMap (tasks : List Task) : List (String × Task) :=
  tasks.foldl (fun m t => upsert m t.id t) []

/- deps_map entry for one id: the declared depends_on filtered to ids that
exist in id_map (lines 186-188). -/
def existingDeps (m : List (String × Task)) (r : String) : List String :=
  match alookup m r with
  | none => []
  | some t => (t.depends_on.getD []).filter fun d => (alookup m d).isSome

/- A task is ready when its remaining-dependency set is empty; striking
scheduled ids from deps_map (line 203) makes a dependency "remaining"
exactly when it is still in the remaining set. -/
def isReady (m : List (String × Task)) (remaining : List String)
    (r : String) : Bool :=
  ((existingDeps m r).filter fun d => decide (d ∈ remaining)).isEmpty

/- The while-loop of lines 194-203.  Each round emits the ready subset of
remaining or, when none is ready (a cycle), all of remaining.  The fuel
argument only makes the recursion structural: each round strictly shrinks
remaining, so fuel = remaining.length never runs out, and the exhaustion
branch returns a permutation anyway. -/
def topoGo (m : List (String × Task)) : Nat → List String → List String
  | 0, remaining => remaining
  | fuel + 1, remaining =>
    if remaining.isEmpty then []
    else
      let ready := remaining.filter (isReady m remaining)
      if ready = [] then remaining
      else ready ++ topoGo m fuel (remaining.filter fun r => !(isReady m remaining r))

def topo (m : List (String × Task)) (remaining : List String) : List String :=
  topoGo m remaining.length remaining

/- hours_to_days (lines 206-207): max(1, (h + cap - 1) // cap). -/
def hours_to_days (cap h : Int) : Int := max 1 ((h + cap - 1).fdiv cap)

/- buffer_days (line 234): max(0, int(round(duration_days * 0.2))). -/
def buffer_days (d : Int) : Int := max 0 ((2 * d + 5).fdiv 10)

/- max of a Python list (used for max(deps_end), lines 225-226, and for
project_end, lines 251-255). -/
def listMax? : List Int → Option Int
  | [] => none
  | x :: xs =>
    match listMax? xs with
    | none => some x
    | some mx => some (max x mx)

/- dates_for_id lookup (dict keyed by task id, line 220). -/
def lookupEntry (dates : List SchedEntry) (d : String) : Option SchedEntry :=
  match dates with
  | [] => none
  | e :: rest => if e.id = d then some e else lookupEntry rest d

structure SchedState where
  dates : List SchedEntry
  roleFree : List (String × Int)
deriving Repr, DecidableEq

/- One iteration of the placement loop (lines 212-248), with the loop's
local variables as named definitions.

deps_end (lines 219-222): strptime of the end_date of every dependency
already present in dates_for_id. -/
def depsEndOf (st : SchedState) (t : Task) : List Int :=
  (t.depends_on.getD []).filterMap fun d =>
    (lookupEntry st.dates d).map fun e => midnight e.end_date

/- earliest (lines 224-227). -/
def earliestOf (ps : Int) (st : SchedState) (t : Task) : Int :=
  match listMax? (depsEndOf st t) with
  | none => ps
  | some mx => max ps (mx + minutesPerDay)

/- start = max(earliest, role_next_free.get(role, project_start)),
lines 229-230. -/
def startOf (ps : Int) (st : SchedState) (t : Task) : Int :=
  max (earliestOf ps st t)
    ((alookup st.roleFree (t.role.getD "default")).getD ps)

/- end_with_buffer (lines 231-235). -/
def endBufOf (ps cap : Int) (st : SchedState) (t : Task) : Int :=
  startOf ps st t + (hours_to_days cap (t.hours.getD 0) - 1) * minutesPerDay +
    buffer_days (hours_to_days cap (t.hours.getD 0)) * minutesPerDay

/- The dates_for_id record written for task t (lines 237-246). -/
def stepEntry (ps cap : Int) (st : SchedState) (t : Task) : SchedEntry :=
  { id := t.id, title := t.title, role := t.role.getD "default",
    hours := t.hours.getD 0,
    start_date := dateOf (startOf ps st t),
    end_date := dateOf (endBufOf ps cap st t),
    duration_days := hours_to_days cap (t.hours.getD 0) +
      buffer_days (hours_to_days cap (t.hours.getD 0)),
    depends_on := t.depends_on.getD [] }

def scheduleStep (ps cap : Int) (st : SchedState) (t : Task) : SchedState :=
  { dates := st.dates ++ [stepEntry ps cap st t],
    roleFree := upsert st.roleFree (t.role.getD "default")
      (endBufOf ps cap st t + minutesPerDay) }

def runSchedule (ps cap : Int) : SchedState → List Task → SchedState
  | st, [] => st
  | st, t :: ts => runSchedule ps cap (scheduleStep ps cap st t) ts

/- role_days accumulation (lines 262-265): setdefault(role, 0) then add. -/
def bumpRole (acc : List (String × Int)) (r : String) (d : Int) :
    List (String × Int) :=
  match alookup acc r with
  | none => acc ++ [(r, d)]
  | some v => upsert acc r (v + d)

def estimate_timeline (tasks : List Task) (project_start : Int)
    (daily_capacity_hours : Int) : TimelineEstimate :=
  let m := idMap tasks
  let orderedIds := topo m (m.map fun p => p.1)
  let ordered := orderedIds.filterMap fun r => alookup m r
  let st := runSchedule project_start daily_capacity_hours ⟨[], []⟩ ordered
  let projectEnd :=
    match listMax? (st.dates.map fun v => midnight v.end_date) with
    | none => project_start
    | some mx => mx
  let totalDays := tdDays (projectEnd - project_start) + 1
  let roleDays := st.dates.foldl (fun acc v => bumpRole acc v.role v.duration_days) []
  { project_start := dateOf project_start, project_end := dateOf projectEnd,
    total_work_days := totalDays, role_days := roleDays,
    task_schedule := st.dates }

/- estimate_timeline on raw dicts: building id_map subscripts t["id"]
(line 183), which raises KeyError as soon as some task lacks the key;
with all ids present the computation proceeds as estimate_timeline. -/
def withIds : List RawTask → Option (List Task)
  | [] => some []
  | t :: ts =>
    match t.withId, withIds ts with
    | some t', some ts' => some (t' :: ts')
    | _, _ => none

def estimate_timeline_raw (tasks : List RawTask) (project_start : Int)
    (daily_capacity_hours : Int) : Except Unit TimelineEstimate :=
  match withIds tasks with
  | none => .error ()
  | some ts => .ok (estimate_timeline ts project_start daily_capacity_hours)

/- The topological pass with the iteration order of the Python set
`remaining` made explicit: each round iterates the set in the order
sigma remaining.  CPython iterates a set of strings in hash-table order,
which is neither tied to insertion order nor stable across interpreter
runs (string hashing is randomised); topoGo above is the special case
sigma = insertion order. -/
def topoGoWith (sigma : List String → List String)
    (m : List (String × Task)) : Nat → List String → List String
  | 0, remaining => remaining
  | fuel + 1, remaining =>
    if remaining.isEmpty then []
    else
      let it := sigma remaining
      let ready := it.filter (isReady m remaining)
      if ready = [] then it
      else ready ++ topoGoWith sigma m fuel
        (remaining.filter fun r => !(decide (r ∈ ready)))

def estimate_timeline_with (sigma : List String → List String)
    (tasks : List Task) (project_start : Int)
    (daily_capacity_hours : Int) : TimelineEstimate :=
  let m := idMap tasks
  let keys := m.map fun p => p.1
  let orderedIds := topoGoWith sigma m keys.length keys
  let ordered := orderedIds.filterMap fun r => alookup m r
  let st := runSchedule project_start daily_capacity_hours ⟨[], []⟩ ordered
  let projectEnd :=
    match listMax? (st.dates.map fun v => midnight v.end_date) with
    | none => project_start
    | some mx => mx
  let totalDays := tdDays (projectEnd - project_start) + 1
  let roleDays := st.dates.foldl (fun acc v => bumpRole acc v.role v.duration_days) []
  { project_start := dateOf project_start, project_end := dateOf projectEnd,
    total_work_days := totalDays, role_days := roleDays,
    task_schedule := st.dates }

/- Concrete inputs used by the per-claim counterexamples and witnesses.
Day number 0 stands for the calendar date 01.01.2024; day d stands for
the d-th day after it. -/

def c1Tasks : List RawTask :=
  [{ id := some "T1", title := some "Build API", hours := some 8,
     role := some "backend" },
   { id := none, hours := some 3, role := some "design" },
   { id := some "T3", depends_on := some ["T1"] }]

def c1Rates : RateTable := [("backend", 500), ("default", 400)]

def c3A : Task :=
  { id := "A", hours := some 6, role := some "r1", depends_on := some ["B"] }

def c3B : Task :=
  { id := "B", hours := some 6, role := some "r2", depends_on := some ["C"] }

def c3C : Task :=
  { id := "C", hours := some 6, role := some "r3", depends_on := some ["B"] }

def c3Tasks : List Task := [c3A, c3B, c3C]

def c3wTasks : List Task :=
  [{ id := "A", hours := some 8, role := some "backend",
     depends_on := some ["B"] },
   { id := "B", hours := some 4, role := some "frontend" }]

def c5Tasks : List Task :=
  [{ id := "Z", hours := some 0, role := some "qa" },
   { id := "W", hours := some 13, role := some "backend" }]

def c6Tasks : List RawTask :=
  [{ id := some "A", role := some "mystery",
     depends_on := some ["A", "ghost", "B"] },
   { id := some "B", hours := some 4, depends_on := some ["A"] }]

def c7Tasks : List Task :=
  [{ id := "T1", hours := some 8, role := some "backend" },
   { id := "T2", hours := some 8, role := some "backend" }]

def c8Task : Task := { id := "A", hours := some 6, role := some "backend" }

def c9Tasks : List Task :=
  [{ id := "T1", hours := some 8, role := some "backend" },
   { id := "T2", hours := some 8, role := some "backend" }]

def c10Tasks : List Task :=
  [{ id := "A", hours := some 6, role := some "backend",
     depends_on := some ["B"] },
   { id := "B", hours := some 6, role := some "frontend",
     depends_on := some ["A"] }]

/- Date arithmetic lemmas. -/

lemma fdiv_day_facts (a : Int) :
    minutesPerDay * Int.fdiv a minutesPerDay + Int.fmod a minutesPerDay = a ∧
    0 ≤ Int.fmod a minutesPerDay ∧ Int.fmod a minutesPerDay < minutesPerDay :=
  ⟨Int.fdiv_add_fmod a minutesPerDay,
   Int.fmod_nonneg' a (by norm_num [minutesPerDay]),
   Int.fmod_lt_of_pos a (by norm_num [minutesPerDay])⟩

lemma dateOf_mono {a b : Int} (h : a ≤ b) : dateOf a ≤ dateOf b := by
  have ha := fdiv_day_facts a
  have hb := fdiv_day_facts b
  unfold dateOf
  unfold minutesPerDay at *
  omega

lemma dateOf_midnight (d : Int) : dateOf (midnight d) = d := by
  have h := fdiv_day_facts (midnight d)
  unfold dateOf
  unfold midnight minutesPerDay at *
  omega

lemma midnight_dateOf_le (a : Int) : midnight (dateOf a) ≤ a := by
  have h := fdiv_day_facts a
  unfold dateOf midnight
  unfold minutesPerDay at *
  omega

lemma lt_dateOf_of_midnight_lt {d a : Int}
    (h : midnight d + minutesPerDay ≤ a) : d < dateOf a := by
  have h2 := dateOf_mono h
  rw [show midnight d + minutesPerDay = midnight (d + 1) by
        unfold midnight; ring,
      dateOf_midnight] at h2
  omega

/- Association list lemmas. -/

lemma alookup_upsert_self {α : Type} (m : List (String × α)) (k : String)
    (v : α) : alookup (upsert m k v) k = some v := by
  induction m with
  | nil => simp [alookup, upsert]
  | cons p rest ih =>
    by_cases h : p.1 = k
    · simp [alookup, upsert, h]
    · simp [alookup, upsert, h, ih]

lemma alookup_upsert_ne {α : Type} (m : List (String × α)) (k k' : String)
    (v : α) (h : k' ≠ k) : alookup (upsert m k v) k' = alookup m k' := by
  have hk : ¬(k = k') := fun h2 => h h2.symm
  induction m with
  | nil => simp [alookup, upsert, hk]
  | cons p rest ih =>
    obtain ⟨a, b⟩ := p
    by_cases hp : a = k
    · subst hp
      simp [alookup, upsert, hk]
    · by_cases hp' : a = k'
      · simp [alookup, upsert, hp, hp', h]
      · simp [alookup, upsert, hp, hp', ih]

lemma mem_upsert {α : Type} {m : List (String × α)} {k : String} {v : α}
    {p : String × α} (h : p ∈ upsert m k v) : p ∈ m ∨ p = (k, v) := by
  induction m with
  | nil => simp [upsert] at h; simp [h]
  | cons q rest ih =>
    by_cases hq : q.1 = k
    · simp [upsert, hq] at h
      rcases h with h | h
      · right; simp [h]
      · left; simp [h]
    · simp [upsert, hq] at h
      rcases h with h | h
      · left; simp [h]
      · rcases ih h with h2 | h2
        · left; simp [h2]
        · right; exact h2

lemma mem_keys_upsert {α : Type} (m : List (String × α)) (k k' : String)
    (v : α) :
    (k' ∈ (upsert m k v).map Prod.fst) ↔ k' = k ∨ k' ∈ m.map Prod.fst := by
  induction m with
  | nil => simp [upsert, eq_comm]
  | cons q rest ih =>
    by_cases hq : q.1 = k
    · subst hq
      simp [upsert, eq_comm]
    · simp [upsert, hq, ih]
      tauto

lemma keys_upsert_nodup {α : Type} {m : List (String × α)} (k : String)
    (v : α) (h : (m.map Prod.fst).Nodup) :
    ((upsert m k v).map Prod.fst).Nodup := by
  induction m with
  | nil => simp [upsert]
  | cons q rest ih =>
    simp only [List.map_cons, List.nodup_cons] at h
    by_cases hq : q.1 = k
    · subst hq
      simpa [upsert] using h
    · simp only [upsert, hq, if_false, List.map_cons, List.nodup_cons]
      refine ⟨?_, ih h.2⟩
      rw [mem_keys_upsert]
      push_neg
      exact ⟨hq, h.1⟩

lemma alookup_isSome_of_mem_keys {α : Type} {m : List (String × α)}
    {k : String} (h : k ∈ m.map Prod.fst) : ∃ v, alookup m k = some v := by
  induction m with
  | nil => simp at h
  | cons q rest ih =>
    by_cases hq : q.1 = k
    · exact ⟨q.2, by simp [alookup, hq]⟩
    · simp only [List.map_cons, List.mem_cons] at h
      rcases h with h | h
      · exact absurd h.symm hq
      · obtain ⟨v, hv⟩ := ih h
        exact ⟨v, by simp [alookup, hq, hv]⟩

lemma alookup_mem {α : Type} {m : List (String × α)} {k : String} {v : α}
    (h : alookup m k = some v) : (k, v) ∈ m := by
  induction m with
  | nil => simp [alookup] at h
  | cons q rest ih =>
    obtain ⟨a, b⟩ := q
    by_cases hq : a = k
    · subst hq
      simp only [alookup, if_true] at h
      simp [← Option.some_inj.mp h]
    · simp only [alookup, hq, if_false] at h
      exact List.mem_cons_of_mem _ (ih h)

lemma alookup_none_of_not_mem_keys {α : Type} {m : List (String × α)}
    {k : String} (h : k ∉ m.map Prod.fst) : alookup m k = none := by
  induction m with
  | nil => simp [alookup]
  | cons q rest ih =>
    obtain ⟨a, b⟩ := q
    simp only [List.map_cons, List.mem_cons, not_or] at h
    have ha : ¬(a = k) := fun hq => h.1 hq.symm
    simp [alookup, ha, ih h.2]

/- idMap invariants. -/

lemma idMap_go_key_eq_id :
    ∀ (ts : List Task) (m : List (String × Task)),
      (∀ p ∈ m, p.2.id = p.1) →
      ∀ p ∈ ts.foldl (fun m t => upsert m t.id t) m, p.2.id = p.1 := by
  intro ts
  induction ts with
  | nil => intro m hm; simpa using hm
  | cons t ts ih =>
    intro m hm
    simp only [List.foldl_cons]
    refine ih _ ?_
    intro p hp
    rcases mem_upsert hp with h | h
    · exact hm p h
    · simp [h]

lemma idMap_key_eq_id (tasks : List Task) :
    ∀ p ∈ idMap tasks, p.2.id = p.1 :=
  idMap_go_key_eq_id tasks [] (by simp)

lemma idMap_go_keys_nodup :
    ∀ (ts : List Task) (m : List (String × Task)),
      (m.map Prod.fst).Nodup →
      ((ts.foldl (fun m t => upsert m t.id t) m).map Prod.fst).Nodup := by
  intro ts
  induction ts with
  | nil => intro m hm; simpa using hm
  | cons t ts ih =>
    intro m hm
    simp only [List.foldl_cons]
    exact ih _ (keys_upsert_nodup _ _ hm)

lemma idMap_keys_nodup (tasks : List Task) :
    ((idMap tasks).map Prod.fst).Nodup :=
  idMap_go_keys_nodup tasks [] (by simp)

lemma idMap_go_keys_mem :
    ∀ (ts : List Task) (m : List (String × Task)) (k : String),
      (k ∈ (ts.foldl (fun m t => upsert m t.id t) m).map Prod.fst ↔
        k ∈ m.map Prod.fst ∨ k ∈ ts.map Task.id) := by
  intro ts
  induction ts with
  | nil => intro m k; simp
  | cons t ts ih =>
    intro m k
    simp only [List.foldl_cons, List.map_cons, List.mem_cons]
    rw [ih, mem_keys_upsert]
    tauto

lemma idMap_keys_mem (tasks : List Task) (k : String) :
    k ∈ (idMap tasks).map Prod.fst ↔ k ∈ tasks.map Task.id := by
  rw [idMap, idMap_go_keys_mem]
  simp

/- The topological pass emits a permutation of the remaining ids, whatever
the fuel. -/

lemma topoGo_perm (m : List (String × Task)) :
    ∀ (fuel : Nat) (remaining : List String),
      (topoGo m fuel remaining).Perm remaining := by
  intro fuel
  induction fuel with
  | zero => intro remaining; simp [topoGo]
  | succ fuel ih =>
    intro remaining
    rw [topoGo]
    by_cases hemp : remaining.isEmpty
    · simp only [hemp, if_true]
      rw [List.isEmpty_iff] at hemp
      simp [hemp]
    · simp only [hemp, if_false]
      by_cases hready : remaining.filter (isReady m remaining) = []
      · simp [hready]
      · simp only [hready, if_false]
        exact (List.Perm.append_left _ (ih _)).trans
          (List.filter_append_perm _ _)

lemma topo_perm (m : List (String × Task)) (remaining : List String) :
    (topo m remaining).Perm remaining :=
  topoGo_perm m remaining.length remaining

/- listMax? lemmas. -/

lemma listMax?_ne_none {x : Int} {xs : List Int} : listMax? (x :: xs) ≠ none := by
  cases h : listMax? xs <;> simp [listMax?, h]

lemma listMax?_isSome {l : List Int} (h : l ≠ []) :
    ∃ mx, listMax? l = some mx := by
  cases l with
  | nil => simp at h
  | cons x xs =>
    cases h2 : listMax? (x :: xs) with
    | none => exact absurd h2 listMax?_ne_none
    | some mx => exact ⟨mx, rfl⟩

lemma le_listMax? :
    ∀ (l : List Int) (x : Int), x ∈ l →
      ∀ mx, listMax? l = some mx → x ≤ mx := by
  intro l
  induction l with
  | nil => simp
  | cons y ys ih =>
    intro x hx mx hmx
    rcases List.mem_cons.mp hx with h | h
    · subst h
      cases h2 : listMax? ys with
      | none => simp [listMax?, h2] at hmx; omega
      | some m2 =>
        simp only [listMax?, h2, Option.some_inj] at hmx
        subst hmx
        exact le_max_left _ _
    · cases h2 : listMax? ys with
      | none =>
        cases ys with
        | nil => simp at h
        | cons z zs => exact absurd h2 listMax?_ne_none
      | some m2 =>
        have hle := ih x h m2 h2
        simp only [listMax?, h2, Option.some_inj] at hmx
        subst hmx
        have := le_max_right y m2
        omega

/- dates_for_id lookup finds each stored entry when ids are distinct. -/

lemma lookupEntry_of_nodup :
    ∀ (dates : List SchedEntry),
      ((dates.map fun e => e.id).Nodup) →
      ∀ e ∈ dates, lookupEntry dates e.id = some e := by
  intro dates
  induction dates with
  | nil => simp
  | cons d rest ih =>
    intro hnd e he
    simp only [List.map_cons, List.nodup_cons] at hnd
    rcases List.mem_cons.mp he with h | h
    · subst h
      simp [lookupEntry]
    · have hne : ¬(d.id = e.id) := by
        intro hq
        apply hnd.1
        rw [hq]
        exact List.mem_map_of_mem (fun e => e.id) h
      simp [lookupEntry, hne, ih hnd.2 e h]

/- Invariant relation between an earlier and a later scheduled entry:
a later entry that depends on an earlier one, or shares its role-track,
starts strictly after the earlier entry's buffered end date. -/
def schedRel (a b : SchedEntry) : Prop :=
  (a.id ∈ b.depends_on → a.end_date < b.start_date) ∧
  (a.role = b.role → a.end_date < b.start_date)

/- role_next_free dominates every stored entry of that role by a full day
past its buffered end. -/
def trackBound (ps : Int) (rf : List (String × Int)) (e : SchedEntry) : Prop :=
  midnight e.end_date + minutesPerDay ≤ (alookup rf e.role).getD ps

lemma one_le_hours_to_days (cap h : Int) : 1 ≤ hours_to_days cap h :=
  le_max_left _ _

lemma buffer_days_nonneg (d : Int) : 0 ≤ buffer_days d :=
  le_max_left _ _

lemma startOf_le_endBufOf (ps cap : Int) (st : SchedState) (t : Task) :
    startOf ps st t ≤ endBufOf ps cap st t := by
  have h1 := one_le_hours_to_days cap (t.hours.getD 0)
  have h2 := buffer_days_nonneg (hours_to_days cap (t.hours.getD 0))
  have h3 : 0 ≤ (hours_to_days cap (t.hours.getD 0) - 1) * minutesPerDay :=
    mul_nonneg (by omega) (by norm_num [minutesPerDay])
  have h4 : 0 ≤ buffer_days (hours_to_days cap (t.hours.getD 0)) * minutesPerDay :=
    mul_nonneg h2 (by norm_num [minutesPerDay])
  unfold endBufOf
  omega

lemma stepEntry_rel (ps cap : Int) (st : SchedState) (t : Task)
    (hnodup : ((st.dates.map fun e => e.id).Nodup))
    (htrack : ∀ e ∈ st.dates, trackBound ps st.roleFree e) :
    ∀ e ∈ st.dates, schedRel e (stepEntry ps cap st t) := by
  intro e he
  have hstart_le : startOf ps st t ≤ endBufOf ps cap st t :=
    startOf_le_endBufOf ps cap st t
  constructor
  · -- dependency part
    intro hdep
    simp only [stepEntry] at hdep
    have hle : lookupEntry st.dates e.id = some e :=
      lookupEntry_of_nodup st.dates hnodup e he
    have hmem : midnight e.end_date ∈ depsEndOf st t := by
      rw [depsEndOf]
      exact List.mem_filterMap.mpr ⟨e.id, hdep, by rw [hle]; rfl⟩
    obtain ⟨mx, hmx⟩ := listMax?_isSome (List.ne_nil_of_mem hmem)
    have hle2 : midnight e.end_date ≤ mx := le_listMax? _ _ hmem mx hmx
    have h3 : mx + minutesPerDay ≤ earliestOf ps st t := by
      unfold earliestOf
      rw [hmx]
      exact le_max_right ps (mx + minutesPerDay)
    have h4 : earliestOf ps st t ≤ startOf ps st t := le_max_left _ _
    show e.end_date < (stepEntry ps cap st t).start_date
    exact lt_dateOf_of_midnight_lt (by omega)
  · -- role-track part
    intro hrole
    have h1 := htrack e he
    unfold trackBound at h1
    have hrole' : e.role = t.role.getD "default" := hrole
    rw [hrole'] at h1
    have h2 : (alookup st.roleFree (t.role.getD "default")).getD ps ≤
        startOf ps st t := le_max_right _ _
    show e.end_date < (stepEntry ps cap st t).start_date
    exact lt_dateOf_of_midnight_lt (by omega)

lemma step_trackBound (ps cap : Int) (st : SchedState) (t : Task)
    (htrack : ∀ e ∈ st.dates, trackBound ps st.roleFree e) :
    ∀ e ∈ (scheduleStep ps cap st t).dates,
      trackBound ps (scheduleStep ps cap st t).roleFree e := by
  intro e he
  have hse : (scheduleStep ps cap st t).dates = st.dates ++ [stepEntry ps cap st t] := rfl
  have hsrf : (scheduleStep ps cap st t).roleFree =
    upsert st.roleFree (t.role.getD "default")
      (endBufOf ps cap st t + minutesPerDay) := rfl
  rw [hse] at he
  rw [hsrf]
  have hstart_le : startOf ps st t ≤ endBufOf ps cap st t :=
    startOf_le_endBufOf ps cap st t
  simp only [List.mem_append, List.mem_singleton] at he
  rcases he with he | he
  · rcases eq_or_ne e.role (t.role.getD "default") with hr | hr
    · unfold trackBound
      rw [hr, alookup_upsert_self]
      have h1 := htrack e he
      unfold trackBound at h1
      rw [hr] at h1
      have h2 : (alookup st.roleFree (t.role.getD "default")).getD ps ≤
          startOf ps st t := le_max_right _ _
      simp only [Option.getD_some]
      have hmpd : (0 : Int) < minutesPerDay := by norm_num [minutesPerDay]
      omega
    · unfold trackBound
      rw [alookup_upsert_ne _ _ _ _ hr]
      exact htrack e he
  · subst he
    unfold trackBound
    have hrole : (stepEntry ps cap st t).role = t.role.getD "default" := rfl
    have hend : (stepEntry ps cap st t).end_date =
      dateOf (endBufOf ps cap st t) := rfl
    rw [hrole, hend, alookup_upsert_self]
    simp only [Option.getD_some]
    have := midnight_dateOf_le (endBufOf ps cap st t)
    omega

lemma stepEntry_start_le_end (ps cap : Int) (st : SchedState) (t : Task) :
    (stepEntry ps cap st t).start_date ≤ (stepEntry ps cap st t).end_date :=
  dateOf_mono (startOf_le_endBufOf ps cap st t)

/- runSchedule structure lemmas. -/

lemma runSchedule_dates_ids (ps cap : Int) :
    ∀ (ts : List Task) (st : SchedState),
      (runSchedule ps cap st ts).dates.map (fun e => e.id) =
        st.dates.map (fun e => e.id) ++ ts.map Task.id := by
  intro ts
  induction ts with
  | nil => intro st; simp [runSchedule]
  | cons t ts ih =>
    intro st
    rw [runSchedule, ih]
    have : (scheduleStep ps cap st t).dates = st.dates ++ [stepEntry ps cap st t] := rfl
    rw [this]
    have hid : (stepEntry ps cap st t).id = t.id := rfl
    simp [hid]

lemma runSchedule_dates_mem (ps cap : Int) :
    ∀ (ts : List Task) (st : SchedState) (e : SchedEntry),
      e ∈ (runSchedule ps cap st ts).dates →
      e ∈ st.dates ∨ ∃ st' t, t ∈ ts ∧ e = stepEntry ps cap st' t := by
  intro ts
  induction ts with
  | nil =>
    intro st e he
    left
    simpa [runSchedule] using he
  | cons t ts ih =>
    intro st e he
    rw [runSchedule] at he
    rcases ih _ e he with h | ⟨st', t', ht', he'⟩
    · have hse : (scheduleStep ps cap st t).dates = st.dates ++ [stepEntry ps cap st t] := rfl
      rw [hse] at h
      simp only [List.mem_append, List.mem_singleton] at h
      rcases h with h | h
      · left; exact h
      · right; exact ⟨st, t, by simp, h⟩
    · right; exact ⟨st', t', by simp [ht'], he'⟩

/- Master invariant: the schedule built by the placement loop is pairwise
ordered by schedRel. -/
lemma runSchedule_inv (ps cap : Int) :
    ∀ (ts : List Task) (st : SchedState),
      ((st.dates.map fun e => e.id) ++ ts.map Task.id).Nodup →
      (∀ e ∈ st.dates, trackBound ps st.roleFree e) →
      st.dates.Pairwise schedRel →
      (runSchedule ps cap st ts).dates.Pairwise schedRel := by
  intro ts
  induction ts with
  | nil =>
    intro st _ _ hpw
    simpa [runSchedule] using hpw
  | cons t ts ih =>
    intro st hnd htrack hpw
    rw [runSchedule]
    have hndst : ((st.dates.map fun e => e.id).Nodup) :=
      List.Nodup.of_append_left hnd
    apply ih
    · have hse : (scheduleStep ps cap st t).dates.map (fun e => e.id) =
          (st.dates.map fun e => e.id) ++ [t.id] := by
        have : (scheduleStep ps cap st t).dates = st.dates ++ [stepEntry ps cap st t] := rfl
        rw [this]
        have hid : (stepEntry ps cap st t).id = t.id := rfl
        simp [hid]
      rw [hse, List.append_assoc]
      simpa using hnd
    · exact step_trackBound ps cap st t htrack
    · have hse : (scheduleStep ps cap st t).dates = st.dates ++ [stepEntry ps cap st t] := rfl
      rw [hse, List.pairwise_append]
      refine ⟨hpw, by simp, ?_⟩
      intro a ha b hb
      simp only [List.mem_singleton] at hb
      subst hb
      exact stepEntry_rel ps cap st t hndst htrack a ha

/- Assembly lemmas for estimate_timeline. -/

lemma filterMap_alookup_map_id (m : List (String × Task))
    (hinv : ∀ p ∈ m, p.2.id = p.1) :
    ∀ ids : List String, (∀ r ∈ ids, r ∈ m.map Prod.fst) →
      (ids.filterMap fun r => alookup m r).map Task.id = ids := by
  intro ids
  induction ids with
  | nil => simp
  | cons r rs ih =>
    intro h
    obtain ⟨v, hv⟩ := alookup_isSome_of_mem_keys (h r (by simp))
    have hvid : v.id = r := hinv (r, v) (alookup_mem hv)
    simp [List.filterMap_cons, hv, hvid, ih fun x hx => h x (by simp [hx])]

lemma task_schedule_eq (tasks : List Task) (ps cap : Int) :
    (estimate_timeline tasks ps cap).task_schedule =
      (runSchedule ps cap ⟨[], []⟩
        ((topo (idMap tasks) ((idMap tasks).map fun p => p.1)).filterMap
          fun r => alookup (idMap tasks) r)).dates := rfl

lemma ordered_map_id (tasks : List Task) :
    ((topo (idMap tasks) ((idMap tasks).map fun p => p.1)).filterMap
        fun r => alookup (idMap tasks) r).map Task.id =
      topo (idMap tasks) ((idMap tasks).map fun p => p.1) := by
  apply filterMap_alookup_map_id _ (idMap_key_eq_id tasks)
  intro r hr
  exact (topo_perm _ _).mem_iff.mp hr

lemma task_schedule_ids (tasks : List Task) (ps cap : Int) :
    (estimate_timeline tasks ps cap).task_schedule.map (fun e => e.id) =
      topo (idMap tasks) ((idMap tasks).map fun p => p.1) := by
  rw [task_schedule_eq, runSchedule_dates_ids]
  simpa using ordered_map_id tasks

lemma sched_pairwise (tasks : List Task) (ps cap : Int) :
    (estimate_timeline tasks ps cap).task_schedule.Pairwise schedRel := by
  rw [task_schedule_eq]
  apply runSchedule_inv
  · have h : (((⟨[], []⟩ : SchedState).dates.map fun e => e.id) ++
        ((topo (idMap tasks) ((idMap tasks).map fun p => p.1)).filterMap
          fun r => alookup (idMap tasks) r).map Task.id) =
        topo (idMap tasks) ((idMap tasks).map fun p => p.1) := by
      simpa using ordered_map_id tasks
    rw [h]
    exact (topo_perm _ _).nodup_iff.mpr (idMap_keys_nodup tasks)
  · intro e he
    simp at he
  · simp

lemma sched_start_le_end (tasks : List Task) (ps cap : Int) :
    ∀ e ∈ (estimate_timeline tasks ps cap).task_schedule,
      e.start_date ≤ e.end_date := by
  intro e he
  rw [task_schedule_eq] at he
  rcases runSchedule_dates_mem ps cap _ _ e he with h | ⟨st', t', _, he'⟩
  · simp at h
  · rw [he']
    exact stepEntry_start_le_end ps cap st' t'

/- Arithmetic characterisations of hours_to_days and buffer_days. -/

lemma fdiv_pos_facts (a b : Int) (hb : 0 < b) :
    b * Int.fdiv a b + Int.fmod a b = a ∧ 0 ≤ Int.fmod a b ∧
      Int.fmod a b < b :=
  ⟨Int.fdiv_add_fmod a b, Int.fmod_nonneg' a hb, Int.fmod_lt_of_pos a hb⟩

lemma fdiv_eq_ceil (h cap : Int) (hcap : 0 < cap) :
    (h + cap - 1).fdiv cap = ⌈(h : ℚ) / (cap : ℚ)⌉ := by
  obtain ⟨heq, hr0, hrlt⟩ := fdiv_pos_facts (h + cap - 1) cap hcap
  have hcapQ : (0 : ℚ) < (cap : ℚ) := by exact_mod_cast hcap
  symm
  rw [Int.ceil_eq_iff]
  have heqQ : (cap : ℚ) * ((h + cap - 1).fdiv cap) +
      ((h + cap - 1).fmod cap) = h + cap - 1 := by exact_mod_cast heq
  have hr0Q : (0 : ℚ) ≤ ((h + cap - 1).fmod cap) := by exact_mod_cast hr0
  have hrltQ : (((h + cap - 1).fmod cap : Int) : ℚ) < cap := by
    exact_mod_cast hrlt
  constructor
  · rw [lt_div_iff₀ hcapQ]
    have e1 : ((((h + cap - 1).fdiv cap : Int) : ℚ) - 1) * (cap : ℚ) =
        (cap : ℚ) * (((h + cap - 1).fdiv cap : Int) : ℚ) - cap := by ring
    rw [e1]
    linarith [heqQ, hr0Q]
  · rw [div_le_iff₀ hcapQ, mul_comm]
    have hrle : (h + cap - 1).fmod cap ≤ cap - 1 := by omega
    have hrleQ : (((h + cap - 1).fmod cap : Int) : ℚ) ≤ (cap : ℚ) - 1 := by
      exact_mod_cast hrle
    linarith [heqQ, hrleQ]

lemma hours_to_days_eq_ceil (cap h : Int) (hcap : 0 < cap) :
    hours_to_days cap h = max 1 ⌈(h : ℚ) / (cap : ℚ)⌉ := by
  unfold hours_to_days
  rw [fdiv_eq_ceil h cap hcap]

lemma rat_floor_int_div (a b : Int) (hb : 0 < b) :
    ⌊(a : ℚ) / (b : ℚ)⌋ = a.fdiv b := by
  obtain ⟨heq, hr0, hrlt⟩ := fdiv_pos_facts a b hb
  have hbQ : (0 : ℚ) < (b : ℚ) := by exact_mod_cast hb
  rw [Int.floor_eq_iff]
  have heqQ : (b : ℚ) * (a.fdiv b) + (a.fmod b) = a := by exact_mod_cast heq
  have hr0Q : (0 : ℚ) ≤ (a.fmod b : Int) := by exact_mod_cast hr0
  have hrltQ : ((a.fmod b : Int) : ℚ) < b := by exact_mod_cast hrlt
  constructor
  · rw [le_div_iff₀ hbQ, mul_comm]
    linarith [heqQ, hr0Q]
  · rw [div_lt_iff₀ hbQ]
    have e2 : (((a.fdiv b : Int) : ℚ) + 1) * (b : ℚ) =
        (b : ℚ) * ((a.fdiv b : Int) : ℚ) + b := by ring
    rw [e2]
    linarith [heqQ, hrltQ]

lemma buffer_days_eq_round (d : Int) :
    buffer_days d = max 0 (round ((d : ℚ) / 5)) := by
  unfold buffer_days
  congr 1
  rw [round_eq]
  have h : (d : ℚ) / 5 + 1 / 2 = ((2 * d + 5 : Int) : ℚ) / ((10 : Int) : ℚ) := by
    push_cast
    ring
  rw [h, rat_floor_int_div _ _ (by norm_num)]

lemma hours_to_days_zero (cap : Int) (hcap : 0 < cap) :
    hours_to_days cap 0 = 1 := by
  unfold hours_to_days
  rw [Int.fdiv_eq_ediv _ (le_of_lt hcap),
    Int.ediv_eq_zero_of_lt (by omega) (by omega)]
  rfl

lemma buffer_days_one : buffer_days 1 = 0 := by decide

lemma ceil_le_hours_plus_buffer (cap h : Int) (hcap : 0 < cap) :
    ⌈(h : ℚ) / (cap : ℚ)⌉ ≤
      hours_to_days cap h + buffer_days (hours_to_days cap h) := by
  have h1 : ⌈(h : ℚ) / (cap : ℚ)⌉ ≤ hours_to_days cap h := by
    rw [hours_to_days_eq_ceil cap h hcap]
    exact le_max_right _ _
  have h2 := buffer_days_nonneg (hours_to_days cap h)
  omega

lemma sched_duration (tasks : List Task) (ps cap : Int) :
    ∀ e ∈ (estimate_timeline tasks ps cap).task_schedule,
      e.duration_days = hours_to_days cap e.hours +
        buffer_days (hours_to_days cap e.hours) := by
  intro e he
  rw [task_schedule_eq] at he
  rcases runSchedule_dates_mem ps cap _ _ e he with h | ⟨st', t', _, he'⟩
  · simp at h
  · subst he'
    rfl

lemma withIds_isSome :
    ∀ tasks : List RawTask, (∀ t ∈ tasks, t.id.isSome = true) →
      ∃ ts, withIds tasks = some ts := by
  intro tasks
  induction tasks with
  | nil => intro _; exact ⟨[], rfl⟩
  | cons t ts ih =>
    intro h
    obtain ⟨i, hi⟩ := Option.isSome_iff_exists.mp (h t (by simp))
    obtain ⟨ts', hts'⟩ := ih fun x hx => h x (by simp [hx])
    refine ⟨Task.mk i t.title t.hours t.role t.depends_on :: ts', ?_⟩
    simp [withIds, RawTask.withId, hi, hts']

/- Claim theorems. -/

/-- C1: for every task list and every rate table containing a "default"
key, estimate_cost succeeds and returns one cost line per input task in
the input order; each line's rate is rateTable[task.role] when that role
is present and rateTable["default"] otherwise (a missing role field reads
as the role "default"); each line's cost is hours times rate with a
missing hours field treated as zero; and the returned total is the exact
sum of the per-line costs. -/
theorem c1_cost_estimate (tasks : List RawTask) (rates : RateTable) (dr : ℚ)
    (hd : alookup rates "default" = some dr) :
    ∃ out : CostEstimate, estimate_cost tasks rates = some out ∧
      out.breakdown.length = tasks.length ∧
      out.total = (out.breakdown.map fun l => l.cost).sum ∧
      ∀ i : Nat, ∀ h1 : i < out.breakdown.length, ∀ h2 : i < tasks.length,
        (out.breakdown.get ⟨i, h1⟩).id = (tasks.get ⟨i, h2⟩).id ∧
        (out.breakdown.get ⟨i, h1⟩).rate =
          (alookup rates ((tasks.get ⟨i, h2⟩).role.getD "default")).getD dr ∧
        (out.breakdown.get ⟨i, h1⟩).cost =
          (((tasks.get ⟨i, h2⟩).hours.getD 0 : Int) : ℚ) *
            (out.breakdown.get ⟨i, h1⟩).rate := by
  refine ⟨_, estimate_cost_spec hd tasks, by simp, rfl, ?_⟩
  intro i h1 h2
  simp [List.get_eq_getElem, List.getElem_map, costLineOf]

/-- C1 witness: the theorem applied to a concrete task list (one known
role, one unknown role with its id and hours keys also exercising the
optional-field fallbacks, one task with missing hours and role) and a
rate table with a "default" entry. -/
theorem c1_cost_estimate_witness :
    alookup c1Rates "default" = some 400 ∧
    (∃ out : CostEstimate, estimate_cost c1Tasks c1Rates = some out ∧
      out.breakdown.length = c1Tasks.length ∧
      out.total = (out.breakdown.map fun l => l.cost).sum ∧
      ∀ i : Nat, ∀ h1 : i < out.breakdown.length,
        ∀ h2 : i < c1Tasks.length,
        (out.breakdown.get ⟨i, h1⟩).id = (c1Tasks.get ⟨i, h2⟩).id ∧
        (out.breakdown.get ⟨i, h1⟩).rate =
          (alookup c1Rates
            ((c1Tasks.get ⟨i, h2⟩).role.getD "default")).getD 400 ∧
        (out.breakdown.get ⟨i, h1⟩).cost =
          (((c1Tasks.get ⟨i, h2⟩).hours.getD 0 : Int) : ℚ) *
            (out.breakdown.get ⟨i, h1⟩).rate) :=
  ⟨rfl, c1_cost_estimate c1Tasks c1Rates 400 rfl⟩

/-- C2: for every task list, including lists with circular or dangling
depends_on references, estimate_timeline terminates (it is a total
function of this development) and its task_schedule carries exactly one
entry per input task id: the emitted ids are duplicate-free and an id
appears in the schedule exactly when it appears among the input tasks. -/
theorem c2_schedule_coverage (tasks : List Task) (ps cap : Int) :
    ((estimate_timeline tasks ps cap).task_schedule.map fun e => e.id).Nodup ∧
    ∀ s : String,
      ((s ∈ (estimate_timeline tasks ps cap).task_schedule.map fun e => e.id) ↔
        s ∈ tasks.map Task.id) := by
  rw [task_schedule_ids]
  have hperm := topo_perm (idMap tasks) ((idMap tasks).map fun p => p.1)
  refine ⟨hperm.nodup_iff.mpr (idMap_keys_nodup tasks), fun s => ?_⟩
  rw [hperm.mem_iff, idMap_keys_mem]

/-- C3 counterexample: the claim as stated is false.  In the input
[c3A, c3B, c3C] task A depends on B, B's id exists, and the dependency
graph restricted to the pair (A, B) is acyclic (A lists B, B does not
list A); yet B sits in a cycle with C, so no task is initially ready,
the fallback emits all three in input order, A is placed before B, and
A's start_date (day 0) is not strictly later than B's end_date (day 0). -/
theorem c3_claim_counterexample :
    "B" ∈ c3A.depends_on.getD [] ∧
    "B" ∈ c3Tasks.map Task.id ∧
    "A" ∉ c3B.depends_on.getD [] ∧
    ((estimate_timeline c3Tasks (midnight 0) 6).task_schedule.find?
        fun e => e.id == "A").map (fun e => e.start_date) = some 0 ∧
    ((estimate_timeline c3Tasks (midnight 0) 6).task_schedule.find?
        fun e => e.id == "B").map (fun e => e.end_date) = some 0 ∧
    ¬ ((0 : Int) < (0 : Int)) := by decide

/-- C3 (amended): for every task list, whenever entry B is emitted
before entry A by the topological pass and A's stored depends_on list
contains B's id, A's scheduled start_date is strictly later (as a
calendar day) than B's buffered end_date.  In particular this covers
every pair whose dependency the pass could respect; the original claim's
pair-restricted acyclicity condition is not enough when B is trapped in
a dependency cycle with a third task. -/
theorem c3_dependency_ordering (tasks : List Task) (ps cap : Int)
    (i j : Nat)
    (hi : i < (estimate_timeline tasks ps cap).task_schedule.length)
    (hj : j < (estimate_timeline tasks ps cap).task_schedule.length)
    (hij : i < j)
    (hdep : ((estimate_timeline tasks ps cap).task_schedule.get ⟨i, hi⟩).id ∈
      ((estimate_timeline tasks ps cap).task_schedule.get ⟨j, hj⟩).depends_on) :
    ((estimate_timeline tasks ps cap).task_schedule.get ⟨i, hi⟩).end_date <
      ((estimate_timeline tasks ps cap).task_schedule.get ⟨j, hj⟩).start_date := by
  have hpw := sched_pairwise tasks ps cap
  rw [List.pairwise_iff_getElem] at hpw
  have hrel := hpw i j hi hj hij
  simp only [List.get_eq_getElem] at hdep ⊢
  exact hrel.1 hdep

/-- C3 witness: in [c3wTasks] task A (listed first) depends on B; the
pass reorders them, schedules B at position 0 and A at position 1, and
A starts on day 1, strictly after B's end on day 0. -/
theorem c3_dependency_ordering_witness :
    ((estimate_timeline c3wTasks (midnight 0) 6).task_schedule.get
        ⟨0, by decide⟩).end_date <
      ((estimate_timeline c3wTasks (midnight 0) 6).task_schedule.get
        ⟨1, by decide⟩).start_date :=
  c3_dependency_ordering c3wTasks (midnight 0) 6 0 1 (by decide) (by decide)
    (by decide) (by decide)

/-- C4: for every task list, any two scheduled entries sharing a role
(related by a dependency or not) have non-overlapping buffered date
ranges, ordered on the role-track consistently with emission order: the
earlier-emitted entry's end_date lies strictly before the later one's
start_date, and every entry's range is well-formed
(start_date less-or-equal end_date). -/
theorem c4_role_non_overlap (tasks : List Task) (ps cap : Int) :
    (estimate_timeline tasks ps cap).task_schedule.Pairwise
      (fun a b => a.role = b.role → a.end_date < b.start_date) ∧
    ∀ e ∈ (estimate_timeline tasks ps cap).task_schedule,
      e.start_date ≤ e.end_date :=
  ⟨(sched_pairwise tasks ps cap).imp fun h => h.2,
   sched_start_le_end tasks ps cap⟩

/-- C5: the raw duration is the ceiling of hours over daily capacity
with a floor of one day; the buffer is round(raw x 0.2) clamped at zero;
the externally visible duration_days of every schedule entry is
raw + buffer; hence duration_days is at least the ceiling and at least
one; and a zero-hour task has raw duration 1 and buffer 0. -/
theorem c5_duration_buffer (h cap ps : Int) (tasks : List Task)
    (hcap : 0 < cap) :
    hours_to_days cap h = max 1 ⌈(h : ℚ) / (cap : ℚ)⌉ ∧
    buffer_days (hours_to_days cap h) =
      max 0 (round (((hours_to_days cap h : Int) : ℚ) / 5)) ∧
    1 ≤ hours_to_days cap h + buffer_days (hours_to_days cap h) ∧
    ⌈(h : ℚ) / (cap : ℚ)⌉ ≤
      hours_to_days cap h + buffer_days (hours_to_days cap h) ∧
    (h = 0 → hours_to_days cap h = 1 ∧
      buffer_days (hours_to_days cap h) = 0) ∧
    ∀ e ∈ (estimate_timeline tasks ps cap).task_schedule,
      e.duration_days = hours_to_days cap e.hours +
        buffer_days (hours_to_days cap e.hours) := by
  refine ⟨hours_to_days_eq_ceil cap h hcap, buffer_days_eq_round _, ?_, ?_,
    ?_, sched_duration tasks ps cap⟩
  · have h1 := one_le_hours_to_days cap h
    have h2 := buffer_days_nonneg (hours_to_days cap h)
    omega
  · exact ceil_le_hours_plus_buffer cap h hcap
  · intro h0
    subst h0
    rw [hours_to_days_zero cap hcap]
    exact ⟨rfl, buffer_days_one⟩

/-- C5 witness: the theorem applied at hours 8 and capacity 6 with a
schedule containing a zero-hour task and a 13-hour task. -/
theorem c5_duration_buffer_witness :
    (0 : Int) < 6 ∧
    (hours_to_days 6 8 = max 1 ⌈(8 : ℚ) / (6 : ℚ)⌉ ∧
     buffer_days (hours_to_days 6 8) =
       max 0 (round (((hours_to_days 6 8 : Int) : ℚ) / 5)) ∧
     1 ≤ hours_to_days 6 8 + buffer_days (hours_to_days 6 8) ∧
     ⌈(8 : ℚ) / (6 : ℚ)⌉ ≤ hours_to_days 6 8 + buffer_days (hours_to_days 6 8) ∧
     ((8 : Int) = 0 → hours_to_days 6 8 = 1 ∧
       buffer_days (hours_to_days 6 8) = 0) ∧
     ∀ e ∈ (estimate_timeline c5Tasks (midnight 0) 6).task_schedule,
       e.duration_days = hours_to_days 6 e.hours +
         buffer_days (hours_to_days 6 e.hours)) :=
  ⟨by decide, c5_duration_buffer 8 6 (midnight 0) c5Tasks (by decide)⟩

/-- C6 counterexample: the claim as stated is false for ill-formed task
records.  A task dict whose "id" key is absent makes estimate_timeline
raise KeyError while building id_map (line 183 subscripts the key), so
the scheduler does fail on this malformed record instead of degrading. -/
theorem c6_claim_counterexample :
    estimate_timeline_raw [{ id := none }] 0 6 = Except.error () := rfl

/-- C6 (amended): estimate_cost raises no error on any task list once
the rate table carries its mandatory "default" key (missing hours,
missing or unknown roles and arbitrary depends_on lists degrade by the
fallback rules), and estimate_timeline raises no error on any task list
whose records each carry an id (circular or dangling dependencies
included); a record without an id, however, makes estimate_timeline
raise KeyError. -/
theorem c6_error_handling (tasks : List RawTask) (rates : RateTable)
    (dr : ℚ) (hd : alookup rates "default" = some dr) (ps cap : Int)
    (hids : ∀ t ∈ tasks, t.id.isSome = true) :
    (∃ c, estimate_cost tasks rates = some c) ∧
    ∃ out, estimate_timeline_raw tasks ps cap = Except.ok out := by
  refine ⟨⟨_, estimate_cost_spec hd tasks⟩, ?_⟩
  obtain ⟨ts, hts⟩ := withIds_isSome tasks hids
  rw [estimate_timeline_raw, hts]
  exact ⟨_, rfl⟩

/-- C6 witness: the amended theorem applied to a task list with a
self-reference, a two-cycle, a dangling reference, an unknown role and
missing hours, every record carrying an id. -/
theorem c6_error_handling_witness :
    alookup DEFAULT_RATES_PER_HOUR "default" = some 500 ∧
    (∀ t ∈ c6Tasks, t.id.isSome = true) ∧
    ((∃ c, estimate_cost c6Tasks DEFAULT_RATES_PER_HOUR = some c) ∧
      ∃ out, estimate_timeline_raw c6Tasks 0 6 = Except.ok out) :=
  ⟨rfl, by decide,
   c6_error_handling c6Tasks DEFAULT_RATES_PER_HOUR 500 rfl 0 6 (by decide)⟩

/-- C7: with the set-iteration order made explicit, the insertion order
reproduces estimate_timeline, while a different enumeration of the very
same remaining set (reversal) yields a different task_schedule on two
independent same-role tasks: the emission order of the ready set is
whatever order the Python set yields, and the output depends on it.
CPython iterates a set of str in randomised-hash order, which is neither
input-order-stable nor fixed across interpreter runs, contradicting the
claimed determinism. -/
theorem c7_order_dependence :
    estimate_timeline_with (fun l => l) c7Tasks (midnight 0) 6 =
      estimate_timeline c7Tasks (midnight 0) 6 ∧
    estimate_timeline_with (fun l => l.reverse) c7Tasks (midnight 0) 6 ≠
      estimate_timeline_with (fun l => l) c7Tasks (midnight 0) 6 := by
  constructor
  · decide
  · decide

/-- C8: the output of estimate_timeline is not a function of the
project_start calendar date alone.  For a single six-hour task, starting
at 00:00 of day 0 gives total_work_days 1, while starting at 15:30
(930 minutes) of the same day gives total_work_days 0: the time of day
survives into project_end minus project_start, whose floored day count
drops below the day-granularity value.  All other fields coincide. -/
theorem c8_time_of_day_dependence :
    (estimate_timeline [c8Task] (midnight 0) 6).total_work_days = 1 ∧
    (estimate_timeline [c8Task] (midnight 0 + 930) 6).total_work_days = 0 ∧
    (estimate_timeline [c8Task] (midnight 0 + 930) 6).task_schedule =
      (estimate_timeline [c8Task] (midnight 0) 6).task_schedule ∧
    (estimate_timeline [c8Task] (midnight 0 + 930) 6).project_start =
      (estimate_timeline [c8Task] (midnight 0) 6).project_start ∧
    (estimate_timeline [c8Task] (midnight 0 + 930) 6).project_end =
      (estimate_timeline [c8Task] (midnight 0) 6).project_end ∧
    (estimate_timeline [c8Task] (midnight 0 + 930) 6).role_days =
      (estimate_timeline [c8Task] (midnight 0) 6).role_days := by
  decide

/-- C9 counterexample: the claim as stated is false.  With two
independent 8-hour tasks on one role at capacity 6 from day 0
(01.01.2024), the first task's buffered end is day 1 (02.01), not day 2
(03.01): its buffer is round(2 x 0.2) = round(0.4) = 0 days; and the
second task begins on day 2 (03.01), not day 3 (04.01). -/
theorem c9_claim_counterexample :
    ((estimate_timeline c9Tasks (midnight 0) 6).task_schedule.map
      fun e => (e.id, e.start_date, e.end_date)) =
        [("T1", 0, 1), ("T2", 2, 3)] ∧
    ¬ (∃ e ∈ (estimate_timeline c9Tasks (midnight 0) 6).task_schedule,
        e.id = "T1" ∧ e.end_date = 2) ∧
    ¬ (∃ e ∈ (estimate_timeline c9Tasks (midnight 0) 6).task_schedule,
        e.id = "T2" ∧ e.start_date = 3) := by decide

/-- C9 (amended): in the same scenario the first task is scheduled day 0
through day 1 (01.01-02.01) with zero buffer days (round(0.4) = 0) and
visible duration 2, and the second task begins on day 2 (03.01), the
role-track being freed one day after the first task's buffered end. -/
theorem c9_two_task_schedule :
    ((estimate_timeline c9Tasks (midnight 0) 6).task_schedule.map
      fun e => (e.id, e.start_date, e.end_date, e.duration_days)) =
        [("T1", 0, 1, 2), ("T2", 2, 3, 2)] := by decide

/-- C10 counterexample: the claim as stated is false.  For the two-task
cycle A depends on B, B depends on A with distinct roles, both land in
the same fallback batch, but B is not scheduled at the project start:
A is placed first (day 0), its entry is then visible in dates_for_id
when B is placed, so B starts on day 1. -/
theorem c10_claim_counterexample :
    ((estimate_timeline c10Tasks (midnight 0) 6).task_schedule.map
      fun e => (e.id, e.start_date)) = [("A", 0), ("B", 1)] ∧
    ¬ (∀ e ∈ (estimate_timeline c10Tasks (midnight 0) 6).task_schedule,
        e.start_date = dateOf (midnight 0)) := by decide

/-- C10 (amended): in the two-task cycle no task is initially ready, so
the fallback emits both in one batch and the scheduler terminates; the
batch's first task A starts at the project start on its role-track,
while B, whose dependency A is already scheduled by then, starts the day
after A's buffered end rather than at the project start. -/
theorem c10_cycle_schedule :
    (((idMap c10Tasks).map fun p => p.1).filter
        (isReady (idMap c10Tasks) ((idMap c10Tasks).map fun p => p.1)) = []) ∧
    topo (idMap c10Tasks) ((idMap c10Tasks).map fun p => p.1) = ["A", "B"] ∧
    ((estimate_timeline c10Tasks (midnight 0) 6).task_schedule.map
      fun e => (e.id, e.role, e.start_date, e.end_date)) =
        [("A", "backend", 0, 0), ("B", "frontend", 1, 1)] := by decide

end AnalystService
